import Mathlib

/-!
Verification of the go-pipe pipeline orchestrator (github/go-pipe).

Each section shallowly embeds one part of the Go source:

* `Pipeline.Wait` (src/pipe/pipeline.go, lines 362-449): the termination-cause
  classifier that reduces per-stage `Wait()` results to one canonical error.
* `Pipeline.Start` (src/pipe/pipeline.go, lines 253-352): pipe-kind selection
  between adjacent stages, the start loop, and the `abort` cleanup path.
* `commandStage.Start2` / `filterCmdError` / `setupEnv` /
  `copyEnvWithOverrides` (command stage source): endpoint close regimes,
  exit-error reclassification, and environment assembly.
* `memoryWatchStage` / `killAtLimit` / `logMaxRSS` (memory-watch source):
  the memory-watch adapter and its two polling loops.

Go errors are classified exactly the way the Go control flow classifies them
(`err == nil`, `errors.Is(err, FinishEarly)`, `IsPipeError(err)`, default), so
an error value is embedded as a constructor carrying a numeric payload that
stands for the identity of the concrete Go error value.
-/

namespace GoPipe

/-! ## Termination-cause classifier (`Pipeline.Wait`, pipeline.go 362-449)

A stage's `Wait()` result is `none` (nil error) or one of the three error
classes distinguished by the `switch` in `Pipeline.Wait`:
`errors.Is(err, FinishEarly)`, `IsPipeError(err)`, or any other error.
The `switch` tests the classes in that order, so the constructors below are
the (disjoint) classes induced by it. -/

inductive GoError where
  | finishEarly
  | pipe (id : Nat)
  | other (id : Nat)
deriving DecidableEq

/-- A stage as `Pipeline.Wait` sees it: its `Name()` and the error that its
`Wait()` returns (`none` for a nil error). -/
structure StageSpec where
  name : String
  result : Option GoError
deriving DecidableEq

/-- The loop state of `Pipeline.Wait`: `earliestFailedStage`/`earliestStageErr`
(merged into one optional pair, both are nil or both are set together in the
Go code) and the `finishedEarly` flag. -/
structure WaitState where
  earliest : Option (String × GoError)
  finishedEarly : Bool
deriving DecidableEq

def initState : WaitState := ⟨none, false⟩

/-- One iteration of the `for i := len(p.stages) - 1; i >= 0; i--` loop body
in `Pipeline.Wait` (pipeline.go 374-437), processing stage `s`. -/
def waitStep (st : WaitState) (s : StageSpec) : WaitState :=
  match s.result with
  | none => { st with finishedEarly := false }
  | some .finishEarly => { st with finishedEarly := true }
  | some (.pipe e) =>
      if st.finishedEarly then st
      else if st.earliest.isSome then st
      else { st with earliest := some (s.name, .pipe e) }
  | some (.other e) => ⟨some (s.name, .other e), false⟩

/-- Run the `Pipeline.Wait` loop over the stages of `l` (listed in pipeline
order), starting from state `st`.  The Go loop iterates from the last stage to
the first, so the head of the list is processed after the tail. -/
def waitFrom (l : List StageSpec) (st : WaitState) : WaitState :=
  match l with
  | [] => st
  | s :: rest => waitStep (waitFrom rest st) s

/-- An `Event` as emitted to the pipeline's event handler. -/
structure Event where
  command : String
  msg : String
  err : Option GoError
deriving DecidableEq

/-- What `Pipeline.Wait` produces: the returned error (`some (name, err)`
models `fmt.Errorf("%s: %w", name, err)`, `none` models a nil return) and the
events emitted through `p.eventHandler`. -/
structure WaitOutcome where
  retErr : Option (String × GoError)
  events : List Event
deriving DecidableEq

/-- `Pipeline.Wait` (pipeline.go 362-449): run the classifier loop over all
stages, then, if an error was recorded, emit one "command failed" event and
return the error wrapped with the failing stage's name. -/
def pipelineWait (stages : List StageSpec) : WaitOutcome :=
  match (waitFrom stages initState).earliest with
  | some (nm, e) => ⟨some (nm, e), [⟨nm, "command failed", some e⟩]⟩
  | none => ⟨none, []⟩

/-- `true` iff the stage's `Wait()` error falls into the `default` branch of
the classifier switch: non-nil, not `FinishEarly`, not a pipe error. -/
def isOtherSpec (s : StageSpec) : Bool :=
  match s.result with
  | some (.other _) => true
  | _ => false

theorem waitFrom_cons (s : StageSpec) (l : List StageSpec) (st : WaitState) :
    waitFrom (s :: l) st = waitStep (waitFrom l st) s := rfl

theorem waitStep_earliest_of_not_other (st : WaitState) (s : StageSpec)
    (hs : isOtherSpec s = false) (hsome : st.earliest.isSome = true) :
    (waitStep st s).earliest = st.earliest := by
  rcases hr : s.result with _ | er
  · simp [waitStep, hr]
  · rcases er with _ | e | e
    · simp [waitStep, hr]
    · by_cases hf : st.finishedEarly
      · simp [waitStep, hr, hf]
      · simp [waitStep, hr, hf, hsome]
    · simp [isOtherSpec, hr] at hs

theorem isOtherSpec_true {s : StageSpec} (h : isOtherSpec s = true) :
    ∃ e, s.result = some (.other e) := by
  rcases hr : s.result with _ | er
  · simp [isOtherSpec, hr] at h
  · rcases er with _ | e | e
    · simp [isOtherSpec, hr] at h
    · simp [isOtherSpec, hr] at h
    · exact ⟨e, rfl⟩

theorem waitFrom_earliest_of_find (stages : List StageSpec) (s : StageSpec)
    (h : stages.find? isOtherSpec = some s) :
    ∃ e, s.result = some (.other e) ∧
      (waitFrom stages initState).earliest = some (s.name, .other e) := by
  induction stages with
  | nil => simp [List.find?] at h
  | cons s0 rest ih =>
      by_cases h0 : isOtherSpec s0 = true
      · rw [List.find?_cons_of_pos _ h0] at h
        obtain rfl : s0 = s := by injection h
        obtain ⟨e, he⟩ := isOtherSpec_true h0
        refine ⟨e, he, ?_⟩
        rw [waitFrom_cons]
        simp [waitStep, he]
      · rw [List.find?_cons_of_neg _ h0] at h
        obtain ⟨e, he, hE⟩ := ih h
        refine ⟨e, he, ?_⟩
        rw [waitFrom_cons,
          waitStep_earliest_of_not_other _ _ (by simpa using h0) (by rw [hE]; rfl), hE]

/-- C1: if at least one stage's `Wait()` returns an error that is neither
`FinishEarly` nor a pipe error, then `Pipeline.Wait()` returns a non-nil error
equal to the error of the earliest such stage (the first match in pipeline
order) wrapped with that stage's name — discarding any error recorded from a
later stage — and emits exactly one "command failed" event naming that
stage. -/
theorem wait_reports_earliest_nonpipe_error (stages : List StageSpec)
    (s : StageSpec) (h : stages.find? isOtherSpec = some s) :
    ∃ e, s.result = some (.other e) ∧
      pipelineWait stages =
        ⟨some (s.name, .other e), [⟨s.name, "command failed", some (.other e)⟩]⟩ := by
  obtain ⟨e, he, hE⟩ := waitFrom_earliest_of_find stages s h
  exact ⟨e, he, by unfold pipelineWait; rw [hE]⟩

/-- Witness for C1: a concrete pipeline where stage "a" (the earliest non-pipe
failure) wins over the later non-pipe failure of "b" and the pipe error of
"c". -/
theorem wait_reports_earliest_nonpipe_error_witness :
    ∃ e, (⟨"a", some (.other 1)⟩ : StageSpec).result = some (.other e) ∧
      pipelineWait [⟨"a", some (.other 1)⟩, ⟨"b", some (.other 2)⟩, ⟨"c", some (.pipe 3)⟩] =
        ⟨some ("a", .other 1), [⟨"a", "command failed", some (.other 1)⟩]⟩ := by
  have h := wait_reports_earliest_nonpipe_error
    [⟨"a", some (.other 1)⟩, ⟨"b", some (.other 2)⟩, ⟨"c", some (.pipe 3)⟩]
    ⟨"a", some (.other 1)⟩ (by decide)
  obtain ⟨e, he, hw⟩ := h
  obtain rfl : e = 1 := by
    have := he
    simp only [Option.some.injEq, GoError.other.injEq] at this
    omega
  exact ⟨1, he, hw⟩

theorem waitFrom_append (l1 l2 : List StageSpec) (st : WaitState) :
    waitFrom (l1 ++ l2) st = waitFrom l1 (waitFrom l2 st) := by
  induction l1 with
  | nil => rfl
  | cons s rest ih => simp [waitFrom, ih]

/-- The error recorded in `earliestStageErr` always comes from the pipe-error
or default branch of the switch, so it is never `FinishEarly`. -/
theorem waitFrom_earliest_not_finishEarly (l : List StageSpec) (st : WaitState)
    (hst : ∀ nm e, st.earliest = some (nm, e) → e ≠ GoError.finishEarly) :
    ∀ nm e, (waitFrom l st).earliest = some (nm, e) → e ≠ GoError.finishEarly := by
  induction l with
  | nil => exact hst
  | cons s rest ih =>
      intro nm e he
      rw [waitFrom_cons] at he
      rcases hr : s.result with _ | er
      · simp only [waitStep, hr] at he
        exact ih nm e he
      · rcases er with _ | e0 | e0
        · simp only [waitStep, hr] at he
          exact ih nm e he
        · simp only [waitStep, hr] at he
          by_cases hf : (waitFrom rest st).finishedEarly
          · rw [if_pos hf] at he
            exact ih nm e he
          · rw [if_neg hf] at he
            by_cases hs : (waitFrom rest st).earliest.isSome = true
            · rw [if_pos hs] at he
              exact ih nm e he
            · rw [if_neg hs] at he
              simp only [Option.some.injEq, Prod.mk.injEq] at he
              obtain ⟨-, rfl⟩ := he
              simp
        · simp only [waitStep, hr] at he
          simp only [Option.some.injEq, Prod.mk.injEq] at he
          obtain ⟨-, rfl⟩ := he
          simp

/-- C2: `Pipeline.Wait` treats `FinishEarly` as success — it never appears in
the returned error (first conjunct).  When stage `i` returns `FinishEarly`,
the pipe error of the immediately preceding stage `i-1` is suppressed: the
whole `Wait` outcome is as if stage `i-1` were absent (second conjunct).  A
pipe error from a stage is likewise suppressed when some later stage has
already recorded a canonical error (third conjunct). -/
theorem wait_finishEarly_and_pipe_suppression :
    (∀ stages nm e, (pipelineWait stages).retErr = some (nm, e) →
        e ≠ GoError.finishEarly) ∧
    (∀ pre nm1 nm2 e post,
        pipelineWait (pre ++ ⟨nm1, some (.pipe e)⟩ :: ⟨nm2, some .finishEarly⟩ :: post) =
          pipelineWait (pre ++ ⟨nm2, some .finishEarly⟩ :: post)) ∧
    (∀ pre nm e post, (waitFrom post initState).earliest.isSome = true →
        pipelineWait (pre ++ ⟨nm, some (.pipe e)⟩ :: post) =
          pipelineWait (pre ++ post)) := by
  refine ⟨?_, ?_, ?_⟩
  · intro stages nm e hret
    have hinv := waitFrom_earliest_not_finishEarly stages initState
      (by intro nm e h; simp [initState] at h)
    rcases hE : (waitFrom stages initState).earliest with _ | ⟨nm0, e0⟩
    · rw [pipelineWait, hE] at hret
      simp at hret
    · rw [pipelineWait, hE] at hret
      simp only [Option.some.injEq, Prod.mk.injEq] at hret
      obtain ⟨-, rfl⟩ := hret
      exact hinv nm0 e0 hE
  · intro pre nm1 nm2 e post
    have key : waitFrom (⟨nm1, some (.pipe e)⟩ :: ⟨nm2, some .finishEarly⟩ :: post) initState =
        waitFrom (⟨nm2, some .finishEarly⟩ :: post) initState := by
      show waitStep (waitStep (waitFrom post initState) _) _ = waitStep (waitFrom post initState) _
      unfold waitStep
      simp
    unfold pipelineWait
    rw [show (⟨nm1, some (.pipe e)⟩ : StageSpec) :: ⟨nm2, some .finishEarly⟩ :: post =
          [⟨nm1, some (.pipe e)⟩, ⟨nm2, some .finishEarly⟩] ++ post from rfl]
    rw [show (⟨nm2, some .finishEarly⟩ : StageSpec) :: post =
          [⟨nm2, some .finishEarly⟩] ++ post from rfl]
    rw [← List.append_assoc, ← List.append_assoc, waitFrom_append, waitFrom_append,
      waitFrom_append, waitFrom_append]
    rw [show waitFrom [⟨nm1, some (.pipe e)⟩, ⟨nm2, some .finishEarly⟩] (waitFrom post initState) =
          waitFrom [⟨nm2, some .finishEarly⟩] (waitFrom post initState) from key]
  · intro pre nm e post hsome
    have key : waitFrom (⟨nm, some (.pipe e)⟩ :: post) initState =
        waitFrom post initState := by
      show waitStep (waitFrom post initState) _ = waitFrom post initState
      unfold waitStep
      simp only
      by_cases hf : (waitFrom post initState).finishedEarly
      · simp [hf]
      · simp [hf, hsome]
    unfold pipelineWait
    rw [show (⟨nm, some (.pipe e)⟩ : StageSpec) :: post =
          [⟨nm, some (.pipe e)⟩] ++ post from rfl]
    rw [← List.append_assoc, waitFrom_append, waitFrom_append, waitFrom_append]
    rw [show waitFrom [⟨nm, some (.pipe e)⟩] (waitFrom post initState) =
          waitFrom post initState from key]

/-- Witness for C2, at concrete inputs: the suppression of a pipe error before
a `FinishEarly` stage, and the suppression of a pipe error when a later stage
already recorded an error. -/
theorem wait_finishEarly_and_pipe_suppression_witness :
    pipelineWait [⟨"p", some (.pipe 1)⟩, ⟨"f", some .finishEarly⟩] =
      pipelineWait [⟨"f", some .finishEarly⟩] ∧
    pipelineWait [⟨"p", some (.pipe 1)⟩, ⟨"c", some (.other 2)⟩] =
      pipelineWait [⟨"c", some (.other 2)⟩] :=
  ⟨wait_finishEarly_and_pipe_suppression.2.1 [] "p" "f" 1 [],
   wait_finishEarly_and_pipe_suppression.2.2 [] "p" 1 [⟨"c", some (.other 2)⟩] (by decide)⟩


namespace StartModel

/-! ## `Pipeline.Start` (pipeline.go 253-352)

The model tracks, per stage, its `Preferences()` and whether its `Start()`
call succeeds (`startResult = none`) or fails with a given error
(`startResult = some e`).  `Pipeline.Start` is embedded as a function that
produces the trace of observable actions (pipe creations with their kind,
stage starts, closes, the `abort` cleanup steps) plus the returned error.
`os.Pipe()` itself is modelled as never failing (its error path is not the
subject of any claim). -/

inductive IOPreference where
  | undefined
  | file
  | nilPref
deriving DecidableEq

structure StagePreferences where
  stdinPreference : IOPreference
  stdoutPreference : IOPreference
deriving DecidableEq

inductive PipeKind where
  | osPipe
  | ioPipe
deriving DecidableEq

/-- The pipe-kind decision of pipeline.go 320-330 for the pipe between a stage
with preferences `a` (producer) and its successor with preferences `b`
(consumer): `os.Pipe()` when either side prefers a file, else `io.Pipe()`. -/
def connectionKind (a b : StagePreferences) : PipeKind :=
  if a.stdoutPreference = .file ∨ b.stdinPreference = .file then .osPipe else .ioPipe

/-- A stage as `Pipeline.Start` sees it. -/
structure StageModel where
  name : String
  prefs : StagePreferences
  startResult : Option Nat
deriving DecidableEq

/-- Observable actions of `Pipeline.Start`.  `createPipe k i` is the creation
of the pipe (of kind `k`) between stages `i` and `i+1`; `closeReader i`
closes the reader end destined for stage `i` (`stageStarters[i].stdin`);
`closeWriter i` closes the writer end given to stage `i`; `cancel` is
`p.cancel()`; `waitStage j` is the ignored `s.Wait()` call of the `abort`
cleanup; `emitEvent` is a call of `p.eventHandler`. -/
inductive StartAct where
  | createPipe (k : PipeKind) (i : Nat)
  | startStage (i : Nat)
  | closeReader (i : Nat)
  | closeWriter (i : Nat)
  | cancel
  | waitStage (i : Nat)
  | emitEvent (name : String) (msg : String)
deriving DecidableEq

def nameAt (all : List StageModel) (i : Nat) : String :=
  ((all[i]?).map StageModel.name).getD ""

def startFailMsg : String := "failed to start pipeline stage"

/-- The `abort(i, err)` cleanup of pipeline.go 286-308: close
`stageStarters[i].stdin` when it is non-nil (for `i = 0` that means the
pipeline has a configured stdin; for `i > 0` the reader was created by the
previous loop iteration and is always non-nil), cancel the child context,
`Wait()` on stages `0..i-1`, and emit the start-failure event. -/
def abortActs (all : List StageModel) (pstdin : Bool) (i : Nat) : List StartAct :=
  (if i = 0 then (if pstdin then [.closeReader 0] else []) else [.closeReader i]) ++
    [.cancel] ++ (List.range i).map .waitStage ++ [.emitEvent (nameAt all i) startFailMsg]

/-- The start loop of pipeline.go 314-349 over the remaining stages `rem`,
where `i` is the pipeline index of the head of `rem` and `all` is the full
stage list (used by `abort` for names and wait indices).  A singleton `rem`
is the special-cased last stage (no pipe is created for it); otherwise a pipe
to the successor is created first, then the stage is started, and on failure
both fresh pipe ends are closed before `abort` runs. -/
def startAux (all : List StageModel) (pstdin : Bool) :
    Nat → List StageModel → List StartAct × Option (String × Nat)
  | _, [] => ([], none)
  | i, [s] =>
      match s.startResult with
      | none => ([.startStage i], none)
      | some e => (.startStage i :: abortActs all pstdin i, some (nameAt all i, e))
  | i, s :: s' :: rest =>
      let k := connectionKind s.prefs s'.prefs
      match s.startResult with
      | none =>
          let res := startAux all pstdin (i + 1) (s' :: rest)
          (.createPipe k i :: .startStage i :: res.1, res.2)
      | some e =>
          (.createPipe k i :: .startStage i :: .closeReader (i + 1) :: .closeWriter i ::
              abortActs all pstdin i,
            some (nameAt all i, e))

/-- Go's bounds check for an index expression `l[i]` (with `i : Int`, since
`len(p.stages) - 1` can be negative). -/
def goIndexOk (len : Nat) (i : Int) : Bool := 0 ≤ i ∧ i < len

/-- Go's bounds check for a slice expression `l[:hi]`. -/
def goSliceOk (len : Nat) (hi : Int) : Bool := 0 ≤ hi ∧ hi ≤ len

/-- `Pipeline.Start` (pipeline.go 253-352).  `pstdin`/`pstdout` record whether
the pipeline has a configured stdin/stdout.  The three guards model, in
source order, the index expression `stageStarters[0]` (line 274), the index
expression `stageStarters[len(p.stages)-1]` (line 279), and the slice
expression `p.stages[:len(p.stages)-1]` of the start loop (line 314); `none`
models a Go runtime panic from one of them. -/
def pipelineStart (pstdin pstdout : Bool) (stages : List StageModel) :
    Option (List StartAct × Option (String × Nat)) :=
  let n := stages.length
  if pstdin && !goIndexOk n 0 then none
  else if pstdout && !goIndexOk n ((n : Int) - 1) then none
  else if !goSliceOk n ((n : Int) - 1) then none
  else some (startAux stages pstdin 0 stages)

/-- The trace of a run in which every stage starts successfully: one
`createPipe`/`startStage` pair per non-last stage, then the last stage's
`startStage`. -/
def okTrace : Nat → List StageModel → List StartAct
  | _, [] => []
  | i, [_] => [.startStage i]
  | i, s :: s' :: rest =>
      .createPipe (connectionKind s.prefs s'.prefs) i :: .startStage i ::
        okTrace (i + 1) (s' :: rest)

theorem startAux_allOk (all : List StageModel) (pstdin : Bool) :
    ∀ rem i, (∀ s ∈ rem, s.startResult = none) →
      startAux all pstdin i rem = (okTrace i rem, none) := by
  intro rem
  induction rem with
  | nil => intro i _; rfl
  | cons s rest ih =>
      intro i hok
      have hs : s.startResult = none := hok s (by simp)
      match rest with
      | [] => simp [startAux, okTrace, hs]
      | s' :: rest' =>
          have := ih (i + 1) (fun t ht => hok t (by simp [ht]))
          simp [startAux, okTrace, hs, this]

theorem okTrace_createPipe_mem :
    ∀ (rem : List StageModel) (i0 i : Nat) (a b : StageModel),
      rem[i]? = some a → rem[i + 1]? = some b →
      StartAct.createPipe (connectionKind a.prefs b.prefs) (i0 + i) ∈ okTrace i0 rem := by
  intro rem
  induction rem with
  | nil => intro i0 i a b ha _; simp at ha
  | cons s rest ih =>
      intro i0 i a b ha hb
      match rest with
      | [] =>
          match i with
          | 0 => simp at hb
          | _ + 1 => simp at hb
      | s' :: rest' =>
          match i with
          | 0 =>
              obtain rfl : s = a := by simpa using ha
              obtain rfl : s' = b := by simpa using hb
              simp [okTrace]
          | j + 1 =>
              have ha' : (s' :: rest')[j]? = some a := by simpa using ha
              have hb' : (s' :: rest')[j + 1]? = some b := by simpa using hb
              have := ih (i0 + 1) j a b ha' hb'
              rw [okTrace]
              refine List.mem_cons_of_mem _ (List.mem_cons_of_mem _ ?_)
              have harith : i0 + 1 + j = i0 + (j + 1) := by omega
              rwa [harith] at this

/-- C3: for every adjacent pair of stages `(i, i+1)` of a pipeline all of
whose stages start successfully, `Pipeline.Start` creates the pipe between
them with `os.Pipe()` if and only if stage `i` prefers a file stdout or
stage `i+1` prefers a file stdin, and with `io.Pipe()` otherwise. -/
theorem start_pipe_kind_selection (pstdin pstdout : Bool)
    (stages : List StageModel) (i : Nat) (a b : StageModel)
    (hall : ∀ s ∈ stages, s.startResult = none)
    (ha : stages[i]? = some a) (hb : stages[i + 1]? = some b) :
    pipelineStart pstdin pstdout stages = some (okTrace 0 stages, none) ∧
    StartAct.createPipe (connectionKind a.prefs b.prefs) i ∈ okTrace 0 stages ∧
    (connectionKind a.prefs b.prefs = .osPipe ↔
      (a.prefs.stdoutPreference = .file ∨ b.prefs.stdinPreference = .file)) := by
  have hne : stages ≠ [] := by
    intro h
    rw [h] at ha
    simp at ha
  have hlen : 1 ≤ stages.length := by
    cases stages with
    | nil => exact absurd rfl hne
    | cons _ _ => simp
  refine ⟨?_, ?_, ?_⟩
  · unfold pipelineStart
    have h1 : goIndexOk stages.length 0 = true := by
      simp [goIndexOk]
      omega
    have h2 : goIndexOk stages.length ((stages.length : Int) - 1) = true := by
      simp [goIndexOk]
      omega
    have h3 : goSliceOk stages.length ((stages.length : Int) - 1) = true := by
      simp [goSliceOk]
      omega
    simp only [h1, h2, h3, Bool.not_true, Bool.and_false, if_false, Bool.false_eq_true]
    rw [startAux_allOk stages pstdin stages 0 hall]
  · have := okTrace_createPipe_mem stages 0 i a b ha hb
    simpa using this
  · unfold connectionKind
    by_cases hc : a.prefs.stdoutPreference = .file ∨ b.prefs.stdinPreference = .file
    · simp [hc]
    · simp [hc]

/-- Witness for C3: a two-stage pipeline where the first stage prefers a file
stdout, so the connecting pipe is a kernel pipe. -/
theorem start_pipe_kind_selection_witness :
    pipelineStart false false
        [⟨"a", ⟨.undefined, .file⟩, none⟩, ⟨"b", ⟨.undefined, .undefined⟩, none⟩] =
      some (okTrace 0 [⟨"a", ⟨.undefined, .file⟩, none⟩, ⟨"b", ⟨.undefined, .undefined⟩, none⟩],
        none) ∧
    StartAct.createPipe
        (connectionKind (⟨.undefined, .file⟩ : StagePreferences) ⟨.undefined, .undefined⟩) 0 ∈
      okTrace 0 [⟨"a", ⟨.undefined, .file⟩, none⟩, ⟨"b", ⟨.undefined, .undefined⟩, none⟩] ∧
    (connectionKind (⟨.undefined, .file⟩ : StagePreferences) ⟨.undefined, .undefined⟩ = .osPipe ↔
      ((⟨.undefined, .file⟩ : StagePreferences).stdoutPreference = .file ∨
        (⟨.undefined, .undefined⟩ : StagePreferences).stdinPreference = .file)) :=
  start_pipe_kind_selection false false
    [⟨"a", ⟨.undefined, .file⟩, none⟩, ⟨"b", ⟨.undefined, .undefined⟩, none⟩] 0
    ⟨"a", ⟨.undefined, .file⟩, none⟩ ⟨"b", ⟨.undefined, .undefined⟩, none⟩
    (by decide) (by decide) (by decide)

/-- `true` for the `p.eventHandler(...)` actions of the trace. -/
def isEmitAct : StartAct → Bool
  | .emitEvent _ _ => true
  | _ => false

theorem pipelineStart_nonempty (pstdin pstdout : Bool) (stages : List StageModel)
    (h : stages ≠ []) :
    pipelineStart pstdin pstdout stages = some (startAux stages pstdin 0 stages) := by
  have hlen : 1 ≤ stages.length := by
    cases stages with
    | nil => exact absurd rfl h
    | cons _ _ => simp
  unfold pipelineStart
  have h1 : goIndexOk stages.length 0 = true := by
    simp [goIndexOk]
    omega
  have h2 : goIndexOk stages.length ((stages.length : Int) - 1) = true := by
    simp [goIndexOk]
    omega
  have h3 : goSliceOk stages.length ((stages.length : Int) - 1) = true := by
    simp [goSliceOk]
    omega
  simp only [h1, h2, h3, Bool.not_true, Bool.and_false, if_false, Bool.false_eq_true]

theorem startAux_fail (all : List StageModel) (pstdin : Bool) :
    ∀ (rem : List StageModel) (i0 p : Nat) (s : StageModel) (e : Nat),
      (∀ j, j < p → ∃ t, rem[j]? = some t ∧ t.startResult = none) →
      rem[p]? = some s → s.startResult = some e →
      ∃ pre, startAux all pstdin i0 rem =
          (pre ++ abortActs all pstdin (i0 + p), some (nameAt all (i0 + p), e)) ∧
        ∀ a ∈ pre, isEmitAct a = false := by
  intro rem
  induction rem with
  | nil =>
      intro i0 p s e _ hp _
      simp at hp
  | cons s0 rest ih =>
      intro i0 p s e hok hp hfail
      cases rest with
      | nil =>
          cases p with
          | zero =>
              obtain rfl : s0 = s := by simpa using hp
              refine ⟨[.startStage i0], ?_, ?_⟩
              · simp [startAux, hfail]
              · intro a ha
                simp only [List.mem_singleton] at ha
                subst ha
                rfl
          | succ q => simp at hp
      | cons s1 rest' =>
          cases p with
          | zero =>
              obtain rfl : s0 = s := by simpa using hp
              refine ⟨[.createPipe (connectionKind s0.prefs s1.prefs) i0, .startStage i0,
                .closeReader (i0 + 1), .closeWriter i0], ?_, ?_⟩
              · simp [startAux, hfail]
              · intro a ha
                simp only [List.mem_cons, List.mem_singleton, List.not_mem_nil, or_false] at ha
                rcases ha with rfl | rfl | rfl | rfl <;> rfl
          | succ q =>
              have h0 : s0.startResult = none := by
                obtain ⟨t, ht, hres⟩ := hok 0 (by omega)
                obtain rfl : s0 = t := by simpa using ht
                exact hres
              obtain ⟨pre, heq, hemit⟩ := ih (i0 + 1) q s e
                (fun j hj => by
                  obtain ⟨t, ht, hres⟩ := hok (j + 1) (by omega)
                  exact ⟨t, by simpa using ht, hres⟩)
                (by simpa using hp) hfail
              refine ⟨.createPipe (connectionKind s0.prefs s1.prefs) i0 :: .startStage i0 :: pre,
                ?_, ?_⟩
              · have harith : i0 + 1 + q = i0 + (q + 1) := by omega
                rw [harith] at heq
                simp [startAux, h0, heq]
              · intro a ha
                simp only [List.mem_cons] at ha
                rcases ha with rfl | rfl | ha
                · rfl
                · rfl
                · exact hemit a ha

/-- C7: if every stage before stage `i` starts successfully and stage `i`'s
`Start` fails with error `e`, then `Pipeline.Start` returns the error `e`
wrapped with stage `i`'s name, and its trace closes the reader destined for
stage `i` (when one was created, i.e. when `i > 0` or the pipeline has a
configured stdin), cancels the derived child context, calls `Wait` on every
stage `0..i-1`, and emits exactly one start-failure event, naming stage
`i`. -/
theorem start_failure_cleanup (pstdin pstdout : Bool) (stages : List StageModel)
    (i : Nat) (s : StageModel) (e : Nat)
    (hok : ∀ j, j < i → ∃ t, stages[j]? = some t ∧ t.startResult = none)
    (hi : stages[i]? = some s) (hfail : s.startResult = some e) :
    ∃ tr, pipelineStart pstdin pstdout stages = some (tr, some (s.name, e)) ∧
      ((0 < i ∨ pstdin = true) → StartAct.closeReader i ∈ tr) ∧
      StartAct.cancel ∈ tr ∧
      (∀ j, j < i → StartAct.waitStage j ∈ tr) ∧
      tr.filter isEmitAct = [.emitEvent s.name startFailMsg] := by
  have hne : stages ≠ [] := by
    intro h
    rw [h] at hi
    simp at hi
  have hname : nameAt stages i = s.name := by
    simp [nameAt, hi]
  obtain ⟨pre, heq, hemit⟩ := startAux_fail stages pstdin stages 0 i s e hok hi hfail
  rw [Nat.zero_add] at heq
  refine ⟨pre ++ abortActs stages pstdin i, ?_, ?_, ?_, ?_, ?_⟩
  · rw [pipelineStart_nonempty pstdin pstdout stages hne, heq, hname]
  · intro hcr
    refine List.mem_append_right _ ?_
    unfold abortActs
    rcases Nat.eq_zero_or_pos i with rfl | hpos
    · have hps : pstdin = true := by
        rcases hcr with h | h
        · omega
        · exact h
      simp [hps]
    · have : ¬i = 0 := by omega
      simp [this]
  · refine List.mem_append_right _ ?_
    unfold abortActs
    rcases Nat.eq_zero_or_pos i with rfl | hpos
    · by_cases hps : pstdin = true <;> simp [hps]
    · have : ¬i = 0 := by omega
      simp [this]
  · intro j hj
    refine List.mem_append_right _ ?_
    unfold abortActs
    have hmem : StartAct.waitStage j ∈ (List.range i).map StartAct.waitStage := by
      exact List.mem_map_of_mem _ (List.mem_range.mpr hj)
    rcases Nat.eq_zero_or_pos i with rfl | hpos
    · omega
    · have : ¬i = 0 := by omega
      simp only [this, if_false, List.append_assoc, List.mem_append, List.mem_cons]
      tauto
  · rw [List.filter_append]
    have hpre : pre.filter isEmitAct = [] := by
      rw [List.filter_eq_nil_iff]
      intro a ha
      rw [hemit a ha]
      simp
    rw [hpre, List.nil_append]
    unfold abortActs
    rw [hname]
    rcases Nat.eq_zero_or_pos i with rfl | hpos
    · by_cases hps : pstdin = true <;>
        simp [hps, List.filter_append, List.filter_map, isEmitAct, List.filter_eq_nil_iff]
    · have hnz : ¬i = 0 := by omega
      simp only [hnz, if_false]
      simp [List.filter_append, List.filter_map, isEmitAct, List.filter_eq_nil_iff]

/-- Witness for C7: a two-stage pipeline whose second stage fails to start
with error 7. -/
theorem start_failure_cleanup_witness :
    ∃ tr,
      pipelineStart true false
          [⟨"a", ⟨.undefined, .undefined⟩, none⟩, ⟨"b", ⟨.undefined, .undefined⟩, some 7⟩] =
        some (tr, some ("b", 7)) ∧
      ((0 < 1 ∨ true = true) → StartAct.closeReader 1 ∈ tr) ∧
      StartAct.cancel ∈ tr ∧
      (∀ j, j < 1 → StartAct.waitStage j ∈ tr) ∧
      tr.filter isEmitAct = [.emitEvent "b" startFailMsg] :=
  start_failure_cleanup true false
    [⟨"a", ⟨.undefined, .undefined⟩, none⟩, ⟨"b", ⟨.undefined, .undefined⟩, some 7⟩] 1
    ⟨"b", ⟨.undefined, .undefined⟩, some 7⟩ 7
    (by
      intro j hj
      obtain rfl : j = 0 := by omega
      exact ⟨⟨"a", ⟨.undefined, .undefined⟩, none⟩, by decide, rfl⟩)
    (by decide) (by decide)

/-- C10: starting a pipeline with zero stages panics (the model returns
`none`, standing for the Go runtime panic raised by the stage-slicing and
stage-indexing expressions on an empty stage list) instead of returning an
error or succeeding as a no-op, whatever the stdin/stdout configuration. -/
theorem start_empty_pipeline_panics :
    ∀ pstdin pstdout : Bool, pipelineStart pstdin pstdout [] = none := by
  decide

end StartModel

namespace CommandModel

/-! ## `commandStage.filterCmdError` (command stage source, lines 267-297)

`Cmd.Wait()` returns nil, an `*exec.ExitError`, or some other error.  An
`ExitError` carries the `ProcessState.Sys()` wait status (the type assertion
to `syscall.WaitStatus` can fail, hence the `Option`) and a `Stderr` byte
slice.  The stage state relevant to `filterCmdError` is the stored
cancellation cause `s.ctxErr` (set by `Kill`) and the collected stderr buffer
`s.stderr`. -/

def SIGTERM : Nat := 15
def SIGKILL : Nat := 9

structure WaitStatus where
  signaled : Bool
  signal : Nat
deriving DecidableEq

structure ExitError where
  waitStatus : Option WaitStatus
  stderr : List Nat
deriving DecidableEq

inductive CmdWaitError where
  | exitError (e : ExitError)
  | otherError (id : Nat)
deriving DecidableEq

/-- The error a command stage's `Wait()` can surface after reclassification:
either the (possibly stderr-enriched) error from `Cmd.Wait()`, or the stored
cancellation cause. -/
inductive StageWaitError where
  | fromCmd (e : CmdWaitError)
  | ctxCause (c : Nat)
deriving DecidableEq

/-- `filterCmdError` of the command stage: nil passes through; a non-exit
error passes through; for an exit error, if a cancellation cause is stored
and the wait status says the child died by `SIGTERM` or `SIGKILL`, the cause
is returned instead; otherwise the collected stderr is attached to the exit
error. -/
def filterCmdError (ctxErr : Option Nat) (stderrBuf : List Nat) :
    Option CmdWaitError → Option StageWaitError
  | none => none
  | some (.otherError id) => some (.fromCmd (.otherError id))
  | some (.exitError e) =>
      match ctxErr with
      | some c =>
          match e.waitStatus with
          | some ws =>
              if ws.signaled = true ∧ (ws.signal = SIGTERM ∨ ws.signal = SIGKILL) then
                some (.ctxCause c)
              else some (.fromCmd (.exitError { e with stderr := stderrBuf }))
          | none => some (.fromCmd (.exitError { e with stderr := stderrBuf }))
      | none => some (.fromCmd (.exitError { e with stderr := stderrBuf }))

/-- The guard of the substitution branch: a cancellation cause was recorded
and the child's wait status shows a `SIGTERM`/`SIGKILL` death. -/
def killedByUs (ctxErr : Option Nat) (e : ExitError) : Bool :=
  ctxErr.isSome &&
    (match e.waitStatus with
     | some ws => ws.signaled && (ws.signal == SIGTERM || ws.signal == SIGKILL)
     | none => false)

/-- C4: for a command stage whose child exited with an `ExitError`, if the
wait status shows a death by `SIGTERM` or `SIGKILL` and a cancellation cause
was recorded via `Kill`, `filterCmdError` (and hence the stage's `Wait()`)
returns the recorded cause instead of the exit error; in every other
exit-error case the captured stderr bytes are attached to the exit error
before it is returned. -/
theorem filterCmdError_cause_and_stderr :
    (∀ (c : Nat) (buf : List Nat) (e : ExitError) (ws : WaitStatus),
      e.waitStatus = some ws → ws.signaled = true →
      (ws.signal = SIGTERM ∨ ws.signal = SIGKILL) →
      filterCmdError (some c) buf (some (.exitError e)) = some (.ctxCause c)) ∧
    (∀ (ctxErr : Option Nat) (buf : List Nat) (e : ExitError),
      killedByUs ctxErr e = false →
      filterCmdError ctxErr buf (some (.exitError e)) =
        some (.fromCmd (.exitError ⟨e.waitStatus, buf⟩))) := by
  constructor
  · intro c buf e ws hws hsig hterm
    simp [filterCmdError, hws, hsig, hterm]
  · intro ctxErr buf e hguard
    rcases ctxErr with _ | c
    · simp [filterCmdError]
    · rcases hws : e.waitStatus with _ | ws
      · simp [filterCmdError, hws]
      · rw [killedByUs, hws] at hguard
        simp only [Option.isSome_some, Bool.true_and] at hguard
        have hng : ¬(ws.signaled = true ∧ (ws.signal = SIGTERM ∨ ws.signal = SIGKILL)) := by
          intro ⟨h1, h2⟩
          rw [h1] at hguard
          rcases h2 with h2 | h2 <;> simp [h2] at hguard
        simp [filterCmdError, hws, hng]

/-- Witness for C4: a child killed by SIGTERM with cause 42 recorded, and a
child that exited with status (not a signal) whose stderr gets attached. -/
theorem filterCmdError_cause_and_stderr_witness :
    filterCmdError (some 42) [1, 2] (some (.exitError ⟨some ⟨true, 15⟩, []⟩)) =
      some (.ctxCause 42) ∧
    filterCmdError (some 42) [1, 2] (some (.exitError ⟨some ⟨false, 0⟩, []⟩)) =
      some (.fromCmd (.exitError ⟨some ⟨false, 0⟩, [1, 2]⟩)) :=
  ⟨filterCmdError_cause_and_stderr.1 42 [1, 2] ⟨some ⟨true, 15⟩, []⟩ ⟨true, 15⟩ rfl rfl
      (Or.inl rfl),
   filterCmdError_cause_and_stderr.2 (some 42) [1, 2] ⟨some ⟨false, 0⟩, []⟩ (by decide)⟩

/-! ## `commandStage.Start2` endpoint close regimes (command stage source,
lines 110-216 and `Wait`, lines 299-320)

The stdin argument is one of: a `readerNopCloser`, a
`readerWriterToNopCloser`, a real `*os.File`, or any other `io.ReadCloser`;
the stdout argument is a `writerNopCloser`, a real `*os.File`, or any other
`io.WriteCloser`.  `Nat` payloads stand for the identity of the wrapped
reader/writer or file. -/

inductive GoReader where
  | rdNopCloser (inner : Nat)
  | rdWriterToNopCloser (inner : Nat)
  | rdFile (fd : Nat)
  | rdOther (id : Nat)
deriving DecidableEq

inductive GoWriter where
  | wrNopCloser (inner : Nat)
  | wrFile (fd : Nat)
  | wrOther (id : Nat)
deriving DecidableEq

/-- What gets assigned to `cmd.Stdin`: the stage's argument itself, or the
unwrapped inner reader of a nop-close wrapper. -/
inductive CmdStdin where
  | direct (r : GoReader)
  | inner (id : Nat)
deriving DecidableEq

/-- What gets assigned to `cmd.Stdout`. -/
inductive CmdStdout where
  | direct (w : GoWriter)
  | inner (id : Nat)
deriving DecidableEq

inductive EndpointCloser where
  | rd (r : GoReader)
  | wr (w : GoWriter)
deriving DecidableEq

structure SetupResult (α : Type) where
  assigned : Option α
  early : List EndpointCloser
  late : List EndpointCloser
deriving DecidableEq

/-- The stdin type switch of `Start2` (lines 127-148): nop wrappers are
unwrapped and never closed; a file is assigned directly and goes on
`earlyClosers`; anything else is assigned directly and goes on
`s.lateClosers`. -/
def stdinSetup : Option GoReader → SetupResult CmdStdin
  | none => ⟨none, [], []⟩
  | some (.rdNopCloser id) => ⟨some (.inner id), [], []⟩
  | some (.rdWriterToNopCloser id) => ⟨some (.inner id), [], []⟩
  | some (.rdFile fd) => ⟨some (.direct (.rdFile fd)), [.rd (.rdFile fd)], []⟩
  | some (.rdOther id) => ⟨some (.direct (.rdOther id)), [], [.rd (.rdOther id)]⟩

/-- The stdout type switch of `Start2` (lines 150-169). -/
def stdoutSetup : Option GoWriter → SetupResult CmdStdout
  | none => ⟨none, [], []⟩
  | some (.wrNopCloser id) => ⟨some (.inner id), [], []⟩
  | some (.wrFile fd) => ⟨some (.direct (.wrFile fd)), [.wr (.wrFile fd)], []⟩
  | some (.wrOther id) => ⟨some (.direct (.wrOther id)), [], [.wr (.wrOther id)]⟩

inductive CmdAct where
  | spawn
  | closeEndpoint (c : EndpointCloser)
  | childExit
deriving DecidableEq

/-- The endpoint-related actions of a successful `Start2` (lines 196-202):
`cmd.Start()`, then every early closer is closed, stdin's before stdout's. -/
def start2Trace (stdin : Option GoReader) (stdout : Option GoWriter) : List CmdAct :=
  .spawn :: ((stdinSetup stdin).early ++ (stdoutSetup stdout).early).map .closeEndpoint

/-- The endpoint-related actions of the stage's `Wait` (lines 299-320):
`cmd.Wait()` reaps the child, then the late closers are closed. -/
def waitTrace (stdin : Option GoReader) (stdout : Option GoWriter) : List CmdAct :=
  .childExit :: ((stdinSetup stdin).late ++ (stdoutSetup stdout).late).map .closeEndpoint

/-- The endpoint actions over the whole life of a command stage that spawned
successfully and was waited for. -/
def commandLifecycle (stdin : Option GoReader) (stdout : Option GoWriter) : List CmdAct :=
  start2Trace stdin stdout ++ waitTrace stdin stdout

theorem stdoutSetup_closers_wr (w : Option GoWriter) :
    ∀ c ∈ (stdoutSetup w).early ++ (stdoutSetup w).late, ∃ ww, c = .wr ww := by
  intro c hc
  rcases w with _ | (id | fd | id) <;> simp [stdoutSetup] at hc <;> exact ⟨_, hc⟩

theorem stdinSetup_closers_rd (r : Option GoReader) :
    ∀ c ∈ (stdinSetup r).early ++ (stdinSetup r).late, ∃ rr, c = .rd rr := by
  intro c hc
  rcases r with _ | (id | id | fd | id) <;> simp [stdinSetup] at hc <;> exact ⟨_, hc⟩

theorem count_close_map_eq (l : List EndpointCloser) (c : EndpointCloser) :
    (l.map CmdAct.closeEndpoint).count (CmdAct.closeEndpoint c) = l.count c := by
  induction l with
  | nil => rfl
  | cons x xs ih =>
      by_cases hx : x = c
      · simp [List.count_cons, hx, ih]
      · have : ¬CmdAct.closeEndpoint x = CmdAct.closeEndpoint c := by
          intro h
          exact hx (by injection h)
        simp [List.count_cons, hx, this, ih]

theorem count_rd_closer_zero_of_wr (l : List EndpointCloser)
    (h : ∀ c ∈ l, ∃ ww, c = EndpointCloser.wr ww) (r : GoReader) :
    l.count (EndpointCloser.rd r) = 0 := by
  rw [List.count_eq_zero]
  intro hmem
  obtain ⟨ww, hww⟩ := h _ hmem
  cases hww

theorem count_wr_closer_zero_of_rd (l : List EndpointCloser)
    (h : ∀ c ∈ l, ∃ rr, c = EndpointCloser.rd rr) (w : GoWriter) :
    l.count (EndpointCloser.wr w) = 0 := by
  rw [List.count_eq_zero]
  intro hmem
  obtain ⟨rr, hrr⟩ := h _ hmem
  cases hrr

theorem count_close_lifecycle (stdin : Option GoReader) (stdout : Option GoWriter)
    (c : EndpointCloser) :
    (commandLifecycle stdin stdout).count (CmdAct.closeEndpoint c) =
      ((stdinSetup stdin).early.count c + (stdoutSetup stdout).early.count c) +
        ((stdinSetup stdin).late.count c + (stdoutSetup stdout).late.count c) := by
  rw [commandLifecycle, start2Trace, waitTrace]
  rw [List.count_append, List.count_cons_of_ne (by simp), List.count_cons_of_ne (by simp)]
  rw [List.map_append, List.map_append, List.count_append, List.count_append]
  rw [count_close_map_eq, count_close_map_eq, count_close_map_eq, count_close_map_eq]

/-- C6: the close regimes of a command stage's endpoints.  A nop-close
wrapper is unwrapped (the inner reader/writer is assigned to the child) and
never closed by the stage; a real file is assigned directly and the stage's
copy is closed exactly once, immediately after a successful spawn (in the
`Start2` part of the trace); any other endpoint is assigned directly and
closed exactly once, only after the child has exited (in the `Wait` part of
the trace). -/
theorem start2_close_regimes :
    (∀ fd, stdinSetup (some (.rdFile fd)) =
      ⟨some (.direct (.rdFile fd)), [.rd (.rdFile fd)], []⟩) ∧
    (∀ id, stdinSetup (some (.rdNopCloser id)) = ⟨some (.inner id), [], []⟩) ∧
    (∀ id, stdinSetup (some (.rdWriterToNopCloser id)) = ⟨some (.inner id), [], []⟩) ∧
    (∀ id, stdinSetup (some (.rdOther id)) =
      ⟨some (.direct (.rdOther id)), [], [.rd (.rdOther id)]⟩) ∧
    (∀ fd, stdoutSetup (some (.wrFile fd)) =
      ⟨some (.direct (.wrFile fd)), [.wr (.wrFile fd)], []⟩) ∧
    (∀ id, stdoutSetup (some (.wrNopCloser id)) = ⟨some (.inner id), [], []⟩) ∧
    (∀ id, stdoutSetup (some (.wrOther id)) =
      ⟨some (.direct (.wrOther id)), [], [.wr (.wrOther id)]⟩) ∧
    (∀ fd stdout,
      (commandLifecycle (some (.rdFile fd)) stdout).count
          (CmdAct.closeEndpoint (.rd (.rdFile fd))) = 1 ∧
        CmdAct.closeEndpoint (.rd (.rdFile fd)) ∈ start2Trace (some (.rdFile fd)) stdout) ∧
    (∀ id stdout r,
      (commandLifecycle (some (.rdNopCloser id)) stdout).count
        (CmdAct.closeEndpoint (.rd r)) = 0) ∧
    (∀ id stdout r,
      (commandLifecycle (some (.rdWriterToNopCloser id)) stdout).count
        (CmdAct.closeEndpoint (.rd r)) = 0) ∧
    (∀ id stdout,
      (commandLifecycle (some (.rdOther id)) stdout).count
          (CmdAct.closeEndpoint (.rd (.rdOther id))) = 1 ∧
        CmdAct.closeEndpoint (.rd (.rdOther id)) ∈ waitTrace (some (.rdOther id)) stdout) ∧
    (∀ fd stdin,
      (commandLifecycle stdin (some (.wrFile fd))).count
          (CmdAct.closeEndpoint (.wr (.wrFile fd))) = 1 ∧
        CmdAct.closeEndpoint (.wr (.wrFile fd)) ∈ start2Trace stdin (some (.wrFile fd))) ∧
    (∀ id stdin w,
      (commandLifecycle stdin (some (.wrNopCloser id))).count
        (CmdAct.closeEndpoint (.wr w)) = 0) ∧
    (∀ id stdin,
      (commandLifecycle stdin (some (.wrOther id))).count
          (CmdAct.closeEndpoint (.wr (.wrOther id))) = 1 ∧
        CmdAct.closeEndpoint (.wr (.wrOther id)) ∈ waitTrace stdin (some (.wrOther id))) := by
  have hwrE := fun stdout r =>
    count_rd_closer_zero_of_wr (stdoutSetup stdout).early
      (fun c hc => stdoutSetup_closers_wr stdout c (List.mem_append_left _ hc)) r
  have hwrL := fun stdout r =>
    count_rd_closer_zero_of_wr (stdoutSetup stdout).late
      (fun c hc => stdoutSetup_closers_wr stdout c (List.mem_append_right _ hc)) r
  have hrdE := fun stdin w =>
    count_wr_closer_zero_of_rd (stdinSetup stdin).early
      (fun c hc => stdinSetup_closers_rd stdin c (List.mem_append_left _ hc)) w
  have hrdL := fun stdin w =>
    count_wr_closer_zero_of_rd (stdinSetup stdin).late
      (fun c hc => stdinSetup_closers_rd stdin c (List.mem_append_right _ hc)) w
  refine ⟨fun fd => rfl, fun id => rfl, fun id => rfl, fun id => rfl, fun fd => rfl,
    fun id => rfl, fun id => rfl, ?_, ?_, ?_, ?_, ?_, ?_, ?_⟩
  · intro fd stdout
    constructor
    · rw [count_close_lifecycle, hwrE stdout, hwrL stdout]
      simp [stdinSetup, List.count_cons]
    · simp [start2Trace, stdinSetup]
  · intro id stdout r
    rw [count_close_lifecycle, hwrE stdout, hwrL stdout]
    simp [stdinSetup]
  · intro id stdout r
    rw [count_close_lifecycle, hwrE stdout, hwrL stdout]
    simp [stdinSetup]
  · intro id stdout
    constructor
    · rw [count_close_lifecycle, hwrE stdout, hwrL stdout]
      simp [stdinSetup, List.count_cons]
    · simp [waitTrace, stdinSetup]
  · intro fd stdin
    constructor
    · rw [count_close_lifecycle, hrdE stdin, hrdL stdin]
      simp [stdoutSetup, List.count_cons]
    · simp [start2Trace, stdoutSetup]
  · intro id stdin w
    rw [count_close_lifecycle, hrdE stdin, hrdL stdin]
    simp [stdoutSetup]
  · intro id stdin
    constructor
    · rw [count_close_lifecycle, hrdE stdin, hrdL stdin]
      simp [stdoutSetup, List.count_cons]
    · simp [waitTrace, stdoutSetup]

end CommandModel

namespace EnvModel

/-! ## `setupEnv` / `copyEnvWithOverrides` (command stage source, 220-265)

Environment entries (`KEY=VALUE` strings) are embedded as lists of
characters.  The Go `map[string]string` built from the materialized
`EnvVar` list is unordered; it is embedded as an association list with
update-or-append insertion (`varMap[v.Key] = v.Value`), which fixes one
iteration order for the final `for key, value := range overrides` append.
The properties proved below (which entries survive the copy, and which value
each key maps to) are independent of that order.

Each element of `env.Vars` is a producer function appending `EnvVar`s to the
accumulator; the producers installed by `WithEnvVar`/`WithEnvVars` append a
fixed list, so a producer is modelled by the list it appends and the loop
`for _, fn := range env.Vars { vars = fn(ctx, vars) }` by `List.flatten`. -/

abbrev Entry : Type := List Char

structure EnvVar where
  key : Entry
  value : Entry
deriving DecidableEq

/-- `strings.Index(v, "=") != -1`. -/
def entryHasEq (v : Entry) : Bool := List.contains v '='

/-- `v[:eq]` for `eq` the index of the first `'='`. -/
def entryKey (v : Entry) : Entry := List.takeWhile (fun c => !(c = '=' : Bool)) v

/-- Association-list lookup, standing for a Go map lookup. -/
def lookupVar (k : Entry) : List (Entry × Entry) → Option Entry
  | [] => none
  | p :: rest => if p.1 = k then some p.2 else lookupVar k rest

/-- Association-list insert, standing for `m[k] = v` on a Go map. -/
def mapInsert : List (Entry × Entry) → Entry → Entry → List (Entry × Entry)
  | [], k, v => [(k, v)]
  | p :: rest, k, v => if p.1 = k then (k, v) :: rest else p :: mapInsert rest k v

/-- The `varMap` loop of `setupEnv` (lines 236-239): later entries overwrite
earlier ones with the same key. -/
def buildVarMap (vars : List EnvVar) : List (Entry × Entry) :=
  vars.foldl (fun m v => mapInsert m v.key v.value) []

/-- `copyEnvWithOverrides` (lines 244-265): keep entries without `'='`; drop
entries whose key is overridden; keep the rest; then append one
`fmt.Sprintf("%s=%s", key, value)` entry per override. -/
def copyEnvWithOverrides : List Entry → List (Entry × Entry) → List Entry
  | [], overrides => overrides.map (fun kv => kv.1 ++ '=' :: kv.2)
  | v :: rest, overrides =>
      if entryHasEq v then
        if (lookupVar (entryKey v) overrides).isSome then copyEnvWithOverrides rest overrides
        else v :: copyEnvWithOverrides rest overrides
      else v :: copyEnvWithOverrides rest overrides

/-- `setupEnv` (lines 220-242): a no-op when there are no variable
producers; otherwise the base environment is the caller-set `cmd.Env` or,
when that is nil, the inherited `os.Environ()`, and the result is
`copyEnvWithOverrides(base, varMap)`. -/
def setupEnv (environ : List Entry) (cmdEnv : Option (List Entry))
    (producers : List (List EnvVar)) : Option (List Entry) :=
  if producers = [] then cmdEnv
  else some (copyEnvWithOverrides (cmdEnv.getD environ) (buildVarMap producers.flatten))

theorem copyEnv_eq_filter_append (overrides : List (Entry × Entry)) :
    ∀ myEnv : List Entry,
      copyEnvWithOverrides myEnv overrides =
        myEnv.filter
            (fun v => !(entryHasEq v && (lookupVar (entryKey v) overrides).isSome)) ++
          overrides.map (fun kv => kv.1 ++ '=' :: kv.2) := by
  intro myEnv
  induction myEnv with
  | nil => rfl
  | cons v rest ih =>
      cases h1 : entryHasEq v with
      | true =>
          cases h2 : lookupVar (entryKey v) overrides with
          | some w =>
              have hstep : copyEnvWithOverrides (v :: rest) overrides =
                  copyEnvWithOverrides rest overrides := by
                simp [copyEnvWithOverrides, h1, h2]
              rw [hstep, ih, List.filter_cons_of_neg (by simp [h1, h2])]
          | none =>
              have hstep : copyEnvWithOverrides (v :: rest) overrides =
                  v :: copyEnvWithOverrides rest overrides := by
                simp [copyEnvWithOverrides, h1, h2]
              rw [hstep, ih, List.filter_cons_of_pos (by simp [h1, h2])]
              rfl
      | false =>
          have hstep : copyEnvWithOverrides (v :: rest) overrides =
              v :: copyEnvWithOverrides rest overrides := by
            simp [copyEnvWithOverrides, h1]
          rw [hstep, ih, List.filter_cons_of_pos (by simp [h1])]
          rfl

theorem lookupVar_mapInsert (k v k' : Entry) :
    ∀ m, lookupVar k' (mapInsert m k v) = if k = k' then some v else lookupVar k' m := by
  intro m
  induction m with
  | nil =>
      by_cases h : k = k'
      · simp [mapInsert, lookupVar, h]
      · simp [mapInsert, lookupVar, h]
  | cons p rest ih =>
      obtain ⟨pk, pv⟩ := p
      by_cases hpk : pk = k
      · subst hpk
        by_cases hk' : pk = k'
        · simp [mapInsert, lookupVar, hk']
        · simp [mapInsert, lookupVar, hk']
      · by_cases hk' : pk = k'
        · have hkk : ¬k = k' := fun h => hpk (hk'.trans h.symm)
          have hk'k : ¬k' = k := fun h => hkk h.symm
          simp [mapInsert, lookupVar, hpk, hk', hkk, hk'k]
        · simp [mapInsert, lookupVar, hpk, hk', ih]

theorem lookupVar_foldl_insert (k : Entry) :
    ∀ (vs : List EnvVar) (m : List (Entry × Entry)),
      lookupVar k (vs.foldl (fun acc v => mapInsert acc v.key v.value) m) =
        match (vs.filter (fun v => v.key = k)).getLast? with
        | some w => some w.value
        | none => lookupVar k m := by
  intro vs
  induction vs with
  | nil => intro m; rfl
  | cons v rest ih =>
      intro m
      rw [List.foldl_cons, ih (mapInsert m v.key v.value)]
      by_cases hv : v.key = k
      · rw [List.filter_cons_of_pos (by simp [hv])]
        rcases hh : rest.filter (fun v0 => v0.key = k) with _ | ⟨x, xs⟩
        · rw [hh]
          simp [lookupVar_mapInsert, hv]
        · rw [hh, List.getLast?_cons_cons]
          rcases hgl : (x :: xs).getLast? with _ | w
          · rw [List.getLast?_eq_none_iff] at hgl
            cases hgl
          · rfl
      · rw [List.filter_cons_of_neg (by simp [hv])]
        rcases hh : rest.filter (fun v0 => v0.key = k) with _ | ⟨x, xs⟩
        · rw [hh]
          simp [lookupVar_mapInsert, hv]
        · rw [hh]
          rcases hgl : (x :: xs).getLast? with _ | w
          · rw [List.getLast?_eq_none_iff] at hgl
            cases hgl
          · rfl

theorem lookupVar_buildVarMap (vs : List EnvVar) (k : Entry) :
    lookupVar k (buildVarMap vs) =
      ((vs.filter (fun v => v.key = k)).getLast?).map EnvVar.value := by
  rw [buildVarMap, lookupVar_foldl_insert]
  rcases h : (vs.filter (fun v => v.key = k)).getLast? with _ | w
  · rw [h]
    rfl
  · rw [h]
    rfl

/-- C5: for a command stage with no caller-set environment (`cmd.Env` nil)
in a pipeline with at least one variable producer, the environment passed to
the child is the inherited process environment with every entry whose key
(the part before its first `'='`) is overridden removed, followed by one
`KEY=VALUE` entry per override; and when several producers supply the same
key, the value kept in the override map is the last one supplied. -/
theorem setupEnv_overrides (environ : List Entry) (producers : List (List EnvVar))
    (h : producers ≠ []) :
    setupEnv environ none producers =
      some ((environ.filter (fun v =>
            !(entryHasEq v &&
              (lookupVar (entryKey v) (buildVarMap producers.flatten)).isSome))) ++
          (buildVarMap producers.flatten).map (fun kv => kv.1 ++ '=' :: kv.2)) ∧
    ∀ k, lookupVar k (buildVarMap producers.flatten) =
      ((producers.flatten.filter (fun v => v.key = k)).getLast?).map EnvVar.value := by
  constructor
  · rw [setupEnv, if_neg h, copyEnv_eq_filter_append]
    rfl
  · intro k
    exact lookupVar_buildVarMap _ _

/-- Witness for C5, with inherited environment `["A=1", "B=2", "NOEQ"]`, one
producer supplying `A=9` and another supplying `C=3` then `A=8`: the entry
`A=1` is dropped, `B=2` and `NOEQ` survive, the appended overrides are
`A=8` and `C=3`, and key `A` maps to the last supplied value `8`. -/
theorem setupEnv_overrides_witness :
    setupEnv [['A', '=', '1'], ['B', '=', '2'], ['N', 'O', 'E', 'Q']] none
        [[⟨['A'], ['9']⟩], [⟨['C'], ['3']⟩, ⟨['A'], ['8']⟩]] =
      some [['B', '=', '2'], ['N', 'O', 'E', 'Q'], ['A', '=', '8'], ['C', '=', '3']] ∧
    lookupVar ['A']
        (buildVarMap ([[⟨['A'], ['9']⟩], [⟨['C'], ['3']⟩, ⟨['A'], ['8']⟩]] :
          List (List EnvVar)).flatten) =
      some ['8'] := by
  have h := setupEnv_overrides [['A', '=', '1'], ['B', '=', '2'], ['N', 'O', 'E', 'Q']]
    [[⟨['A'], ['9']⟩], [⟨['C'], ['3']⟩, ⟨['A'], ['8']⟩]] (by decide)
  exact ⟨h.1.trans (by decide), (h.2 ['A']).trans (by decide)⟩

end EnvModel

namespace MemoryModel

/-! ## Memory watchers (`killAtLimit`, `logMaxRSS`, `memoryWatchStage`)

The polling loops are driven by ticker ticks; a run of the loop is embedded
as the list of `GetRSSAnon` outcomes it observes, one per tick, with the
context cancelled after the last listed sample.  Events and the `Kill` call
are collected into a list.  `memoryWatchStage.Wait`/`Kill` are embedded as
the sequence of observable actions they perform, together with the returned
error. -/

inductive Sample where
  | ok (rss : Nat)
  | err (id : Nat)
deriving DecidableEq

inductive WatchEvent where
  | rssError (id : Nat)
  | memExceeded (limit used : Nat)
  | killMemoryLimit
  | peak (maxRSS samples errs : Nat)
deriving DecidableEq

/-- The polling loop of `killAtLimit` (memory-watch source, lines 48-90),
processing the remaining samples with the current `consecutiveErrors` count.
A failed sample increments the count and emits an "error getting RSS" event
whenever `consecutiveErrors >= 2`; a successful sample resets the count, and
if it reaches `byteLimit` the loop emits the breach event, kills the stage
with `ErrMemoryLimitExceeded`, and returns. -/
def killAtLimitRun (byteLimit : Nat) : List Sample → Nat → List WatchEvent
  | [], _ => []
  | .err id :: rest, consec =>
      if 2 ≤ consec + 1 then .rssError id :: killAtLimitRun byteLimit rest (consec + 1)
      else killAtLimitRun byteLimit rest (consec + 1)
  | .ok rss :: rest, _ =>
      if rss < byteLimit then killAtLimitRun byteLimit rest 0
      else [.memExceeded byteLimit rss, .killMemoryLimit]

/-- The polling loop of `logMaxRSS` (memory-watch source, lines 111-160),
carrying `maxRSS`, `samples`, `errors` and `consecutiveErrors`.  A failed
sample emits the "error getting RSS" event exactly when the consecutive
count reaches 2; a successful sample resets the count and updates the
running maximum; cancellation (end of the sample list) emits the peak
summary event. -/
def logMaxRSSRun : List Sample → Nat → Nat → Nat → Nat → List WatchEvent
  | [], maxRSS, samples, errs, _ => [.peak maxRSS samples errs]
  | .err id :: rest, maxRSS, samples, errs, consec =>
      if consec + 1 = 2 then
        .rssError id :: logMaxRSSRun rest maxRSS samples (errs + 1) (consec + 1)
      else logMaxRSSRun rest maxRSS samples (errs + 1) (consec + 1)
  | .ok rss :: rest, maxRSS, samples, errs, _ =>
      logMaxRSSRun rest (if maxRSS < rss then rss else maxRSS) (samples + 1) errs 0

theorem killAtLimitRun_err_run (limit id : Nat) :
    ∀ (k : Nat) (rest : List Sample) (consec : Nat), 1 ≤ consec →
      killAtLimitRun limit (List.replicate k (.err id) ++ rest) consec =
        List.replicate k (.rssError id) ++ killAtLimitRun limit rest (consec + k) := by
  intro k
  induction k with
  | zero => intro rest consec _; simp
  | succ n ih =>
      intro rest consec h
      have hcond : 2 ≤ consec + 1 := by omega
      rw [List.replicate_succ, List.cons_append]
      simp only [killAtLimitRun, hcond, if_true]
      rw [ih rest (consec + 1) (by omega)]
      have harith : consec + 1 + n = consec + (n + 1) := by omega
      rw [harith, List.replicate_succ, List.cons_append]

theorem logMaxRSSRun_err_run_quiet (id : Nat) :
    ∀ (k : Nat) (rest : List Sample) (maxRSS samples errs consec : Nat), 2 ≤ consec →
      logMaxRSSRun (List.replicate k (.err id) ++ rest) maxRSS samples errs consec =
        logMaxRSSRun rest maxRSS samples (errs + k) (consec + k) := by
  intro k
  induction k with
  | zero => intro rest maxRSS samples errs consec _; simp
  | succ n ih =>
      intro rest maxRSS samples errs consec h
      have hcond : ¬consec + 1 = 2 := by omega
      rw [List.replicate_succ, List.cons_append]
      simp only [logMaxRSSRun, hcond, if_false]
      rw [ih rest maxRSS samples (errs + 1) (consec + 1) (by omega)]
      have h1 : errs + 1 + n = errs + (n + 1) := by omega
      have h2 : consec + 1 + n = consec + (n + 1) := by omega
      rw [h1, h2]

/-- Counterexample to C9 as stated: for the limit watcher, a maximal run of
three consecutive failed samples emits the "error getting RSS" event twice
(at the second and at the third failure), not exactly once. -/
theorem killAtLimit_three_failures_two_events :
    (killAtLimitRun 1000 [.err 7, .err 7, .err 7] 0).count (.rssError 7) = 2 ∧
    (killAtLimitRun 1000 [.err 7, .err 7, .err 7] 0).count (.rssError 7) ≠ 1 := by
  decide

/-- C9 (amended): starting from a zero consecutive-error count, a run of `k`
consecutive failed samples makes the limit watcher emit one "error getting
RSS" event per failure from the second one on (`k - 1` events in total),
while the observer watcher emits exactly one such event, at the second
failure, for `k ≥ 2`; in both loops polling continues after the failures,
and a successful sample below the limit resets the consecutive count to
zero, so a later run of failures can emit again. -/
theorem rss_error_debounce_behavior :
    (∀ limit id k rest, 1 ≤ k →
      killAtLimitRun limit (List.replicate k (.err id) ++ rest) 0 =
        List.replicate (k - 1) (.rssError id) ++ killAtLimitRun limit rest k) ∧
    (∀ id k rest maxRSS samples errs, 2 ≤ k →
      logMaxRSSRun (List.replicate k (.err id) ++ rest) maxRSS samples errs 0 =
        .rssError id :: logMaxRSSRun rest maxRSS samples (errs + k) k) ∧
    (∀ limit rss rest consec, rss < limit →
      killAtLimitRun limit (.ok rss :: rest) consec = killAtLimitRun limit rest 0) ∧
    (∀ rss rest maxRSS samples errs consec,
      logMaxRSSRun (.ok rss :: rest) maxRSS samples errs consec =
        logMaxRSSRun rest (if maxRSS < rss then rss else maxRSS) (samples + 1) errs 0) := by
  refine ⟨?_, ?_, ?_, ?_⟩
  · intro limit id k rest hk
    obtain ⟨n, rfl⟩ : ∃ n, k = n + 1 := ⟨k - 1, by omega⟩
    have hcond : ¬2 ≤ 0 + 1 := by omega
    rw [List.replicate_succ, List.cons_append]
    simp only [killAtLimitRun, hcond, if_false]
    rw [killAtLimitRun_err_run limit id n rest (0 + 1) (by omega)]
    have h1 : 0 + 1 + n = n + 1 := by omega
    have h2 : n + 1 - 1 = n := by omega
    rw [h1, h2]
  · intro id k rest maxRSS samples errs hk
    obtain ⟨m, rfl⟩ : ∃ m, k = m + 2 := ⟨k - 2, by omega⟩
    rw [show m + 2 = (m + 1) + 1 from by omega, List.replicate_succ, List.replicate_succ,
      List.cons_append, List.cons_append]
    simp only [logMaxRSSRun, List.append_eq]
    rw [logMaxRSSRun_err_run_quiet id m rest maxRSS samples (errs + 1 + 1) (0 + 1 + 1) (by omega)]
    have h1 : errs + 1 + 1 + m = errs + (m + 2) := by omega
    have h2 : 0 + 1 + 1 + m = m + 2 := by omega
    rw [h1, h2, if_neg (by omega : ¬(0 : Nat) + 1 = 2), if_pos trivial,
      show m + 1 + 1 = m + 2 from by omega]
  · intro limit rss rest consec hlt
    simp [killAtLimitRun, hlt]
  · intro rss rest maxRSS samples errs consec
    rfl

/-- Witness for C9 (amended), at concrete inputs. -/
theorem rss_error_debounce_behavior_witness :
    killAtLimitRun 10 (List.replicate 3 (.err 7) ++ [.ok 1]) 0 =
      List.replicate 2 (.rssError 7) ++ killAtLimitRun 10 [.ok 1] 3 ∧
    logMaxRSSRun (List.replicate 2 (.err 7) ++ []) 4 5 6 0 =
      .rssError 7 :: logMaxRSSRun [] 4 5 (6 + 2) 2 ∧
    killAtLimitRun 10 (.ok 3 :: [.err 0]) 5 = killAtLimitRun 10 [.err 0] 0 ∧
    logMaxRSSRun (.ok 3 :: []) 0 0 0 5 =
      logMaxRSSRun [] (if 0 < 3 then 3 else 0) (0 + 1) 0 0 :=
  ⟨rss_error_debounce_behavior.1 10 7 3 [.ok 1] (by omega),
   rss_error_debounce_behavior.2.1 7 2 [] 4 5 6 (by omega),
   rss_error_debounce_behavior.2.2.1 10 3 [.err 0] 5 (by omega),
   rss_error_debounce_behavior.2.2.2 3 [] 0 0 0 5⟩

/-! ### `memoryWatchStage.Wait` / `Kill` (memory-watch source, lines 196-216) -/

inductive WatchAct where
  | stageWait
  | cancelWatch
  | joinWatch
  | stageKill (id : Nat)
deriving DecidableEq

/-- `stopWatching()`: cancel the watcher's context and join the goroutine. -/
def stopWatchingActs : List WatchAct := [.cancelWatch, .joinWatch]

/-- `memoryWatchStage.Wait` (lines 196-202): await the wrapped stage's
`Wait`; on a non-nil error return it immediately; otherwise stop the watcher
and return nil.  The result is the action sequence and the returned
error. -/
def memoryWatchWait (stageResult : Option Nat) : List WatchAct × Option Nat :=
  match stageResult with
  | some e => ([.stageWait], some e)
  | none => (.stageWait :: stopWatchingActs, none)

/-- `memoryWatchStage.Kill` (lines 208-211): forward to the wrapped stage,
then stop the watcher. -/
def memoryWatchKill (e : Nat) : List WatchAct := .stageKill e :: stopWatchingActs

/-- Counterexample to C8 as stated: when the wrapped stage's `Wait` returns
an error, the adapter returns the error without stopping the watcher
(neither the cancel nor the join happens). -/
theorem memoryWatch_wait_error_skips_stop :
    (memoryWatchWait (some 5)).2 = some 5 ∧
    WatchAct.cancelWatch ∉ (memoryWatchWait (some 5)).1 ∧
    WatchAct.joinWatch ∉ (memoryWatchWait (some 5)).1 := by
  decide

/-- C8 (amended): the adapter's `Wait` awaits the wrapped stage's `Wait` and
returns its result unchanged, but stops the watcher task (cancelling its
context and joining the goroutine) only when that result is success; on an
error it returns at once, leaving the watcher running.  `Kill(err)` forwards
`err` to the wrapped stage and stops the watcher. -/
theorem memoryWatch_wait_kill_behavior :
    memoryWatchWait none = ([.stageWait, .cancelWatch, .joinWatch], none) ∧
    (∀ e, memoryWatchWait (some e) = ([.stageWait], some e)) ∧
    (∀ e, memoryWatchKill e = [.stageKill e, .cancelWatch, .joinWatch]) :=
  ⟨rfl, fun _ => rfl, fun _ => rfl⟩

end MemoryModel

end GoPipe
